import Mathlib

/-!
Shallow embedding of the CDC USB console engine from
`CDC_Console_USB/CDC_USB/cdc_usb_platform.c` / `.h`.

Bytes are modelled as `Nat` (values below 256 where it matters).  The C
byte arrays `commandBuffer` (a 512-byte `char[]`) and the stack array
`receivedBuffer` are modelled as total maps `Nat → Nat` (index to byte);
all stores the code performs land below index 512.  A C string handed to
`sprintf`/`strlen`/a callback is read out by `cString`, which collects
bytes from index 0 up to the first NUL, with fuel equal to the 512-byte
buffer size.  The transport (Harmony USB stack) is modelled by the result
booleans the code checks (`USB_DEVICE_CDC_RESULT_OK` or not) and by an
output trace recording calls the code makes outward: submitted reads,
submitted writes (with the bytes handed to `USB_DEVICE_CDC_Write`),
invocations of the registered line callback (with the C-string content of
the buffer passed at call time) and of the console-ready callback.
A `NULL` or empty string argument to `cdc_usb_write` is modelled as `[]`
(the two are rejected by the same guard in the C).
-/

set_option maxRecDepth 20000

namespace CdcUsb

/-- `APP_READ_BUFFER_SIZE` from cdc_usb_platform.h. -/
def APP_READ_BUFFER_SIZE : Nat := 512

/-- `CDC_USB_LINE_TERMINATOR` is the carriage return byte. -/
def CDC_USB_LINE_TERMINATOR : Nat := 13

/-- `CDC_USB_RESET_LINE_CHAR_1` (BEL). -/
def CDC_USB_RESET_LINE_CHAR_1 : Nat := 7

/-- `CDC_USB_RESET_LINE_CHAR_2` (BS). -/
def CDC_USB_RESET_LINE_CHAR_2 : Nat := 8

/-- The bytes of `CDC_USB_RESET_LINE_RESPONSE`, the C literal
`"\n\rReset line\r\n"` (14 characters). -/
def CDC_USB_RESET_LINE_RESPONSE : List Nat :=
  [10, 13, 82, 101, 115, 101, 116, 32, 108, 105, 110, 101, 13, 10]

/-- Store one byte at one index of a byte buffer (a C array store). -/
def upd (buf : Nat → Nat) (i v : Nat) : Nat → Nat :=
  fun j => if j = i then v else buf j

/-- Store a list of bytes at consecutive indices (memcpy-style). -/
def writeList : (Nat → Nat) → Nat → List Nat → (Nat → Nat)
  | buf, _, [] => buf
  | buf, start, b :: xs => writeList (upd buf start b) (start + 1) xs

/-- Read a C string out of a byte buffer: bytes from position `i` up to
the first NUL, bounded by `fuel` (the buffer size). -/
def cStringAux : Nat → Nat → (Nat → Nat) → List Nat
  | 0, _, _ => []
  | fuel + 1, i, buf => if buf i = 0 then [] else buf i :: cStringAux fuel (i + 1) buf

/-- The C-string content of a 512-byte buffer, read from index 0. -/
def cString (buf : Nat → Nat) : List Nat :=
  cStringAux APP_READ_BUFFER_SIZE 0 buf

/-- The module state: the globals `commandBuffer`, `command_index` (a
`uint8_t`, hence kept below 256 by the `% 256` in the increments) and the
fields of the global `usbState` that the console engine reads or writes.
`cdcReadBuffer` holds the bytes the transport stored for the last read
completion; `cdc_usb_read_line` consumes `numBytesRead` of them. -/
structure CdcState where
  commandBuffer : Nat → Nat
  command_index : Nat
  isConfigured : Bool
  isReadComplete : Bool
  isWriteComplete : Bool
  numBytesRead : Nat
  cdcReadBuffer : List Nat

/-- Outward calls the engine makes, recorded as a trace: the line
callback fired with the C-string content of `commandBuffer` at call time,
the console-ready callback fired, `USB_DEVICE_CDC_Read` called, and
`USB_DEVICE_CDC_Write` called with the given bytes. -/
inductive Output where
  | lineDelivered (line : List Nat)
  | readyFired
  | readSubmitted
  | writeSubmitted (data : List Nat)
deriving DecidableEq

/-- Extract the payload of a `lineDelivered` output. -/
def lineOf : Output → Option (List Nat)
  | .lineDelivered l => some l
  | _ => none

/-- Extract the payload of a `writeSubmitted` output. -/
def writeOf : Output → Option (List Nat)
  | .writeSubmitted d => some d
  | _ => none

/-- `cdc_usb_return_line`: calls the registered callback with (a pointer
to) `commandBuffer` — recorded here as its C-string content at call time,
the third component — then resets `command_index` to 0 and stores NUL at
`commandBuffer[0]`. -/
def cdc_usb_return_line (cb : Nat → Nat) : (Nat → Nat) × Nat × List Nat :=
  (upd cb 0 0, 0, cString cb)

/-- The scanning loop of `cdc_usb_read_line`: walks the chunk left to
right with loop counter `i`.  A terminator byte NUL-terminates
`commandBuffer` at `command_index`, calls `cdc_usb_return_line` and
breaks; a reset sentinel zeroes `command_index`, sprintf-writes the reset
response (14 bytes plus its NUL) at the start of `receivedBuffer` and
breaks; any other byte is stored at `commandBuffer[command_index]`, the
`uint8_t` index increments (wrapping mod 256) and the byte is echoed into
`receivedBuffer[i]`.  Returns the final `commandBuffer`, `command_index`,
`receivedBuffer` and the lines delivered (zero or one). -/
def readLoop : List Nat → Nat → (Nat → Nat) → Nat → (Nat → Nat) →
    ((Nat → Nat) × Nat × (Nat → Nat) × List (List Nat))
  | [], _, cb, ci, rb => (cb, ci, rb, [])
  | b :: rest, i, cb, ci, rb =>
    if b = CDC_USB_LINE_TERMINATOR then
      let cb1 := upd cb ci 0
      let r := cdc_usb_return_line cb1
      (r.1, r.2.1, rb, [r.2.2])
    else if b = CDC_USB_RESET_LINE_CHAR_1 ∨ b = CDC_USB_RESET_LINE_CHAR_2 then
      (cb, 0, writeList rb 0 (CDC_USB_RESET_LINE_RESPONSE ++ [0]), [])
    else
      readLoop rest (i + 1) (upd cb ci b) ((ci + 1) % 256) (upd rb i b)

/-- `cdc_usb_write`: rejects NULL/empty data, an unconfigured session, or
an outstanding write, all without touching state; otherwise copies the
data into the write buffer, clears `isWriteComplete` and calls
`USB_DEVICE_CDC_Write`, whose result (`submitOk`) becomes the return
value.  The third component records the bytes handed to the transport
(`none` when no call was made). -/
def cdc_usb_write (s : CdcState) (data : List Nat) (submitOk : Bool) :
    CdcState × Bool × Option (List Nat) :=
  if data = [] then (s, false, none)
  else if s.isConfigured = false ∨ s.isWriteComplete = false then (s, false, none)
  else ({ s with isWriteComplete := false }, submitOk, some data)

/-- `cdc_usb_read_line`: returns immediately when `numBytesRead` is zero
or no read completion is pending; otherwise scans the received bytes with
`readLoop` over a zero-initialised `receivedBuffer`, clears the
completion flag and byte count, re-arms the next read
(`USB_DEVICE_CDC_Read`, recorded as `readSubmitted`) and echoes
`receivedBuffer` via `cdc_usb_write`. -/
def cdc_usb_read_line (s : CdcState) (writeOk : Bool) : CdcState × List Output :=
  if s.numBytesRead = 0 ∨ s.isReadComplete = false then (s, [])
  else
    let chunk := s.cdcReadBuffer.take s.numBytesRead
    let r := readLoop chunk 0 s.commandBuffer s.command_index (fun _ => 0)
    let s1 : CdcState := { s with
      commandBuffer := r.1, command_index := r.2.1,
      isReadComplete := false, numBytesRead := 0 }
    let w := cdc_usb_write s1 (cString r.2.2.1) writeOk
    (w.1, (r.2.2.2.map Output.lineDelivered) ++ [Output.readSubmitted] ++
      (match w.2.2 with
       | some d => [Output.writeSubmitted d]
       | none => []))

/-- `cdc_usb_initialize`: zeroes `command_index` and the first byte of
the command buffer (the read/write buffer head stores touch only bytes
the engine never reads back before overwriting, modelled on the read
buffer by zeroing its head element); when configured, re-submits the
initial read, clears `isReadComplete` and returns whether the submit
succeeded; otherwise returns false. -/
def cdc_usb_initialize (s : CdcState) (readOk : Bool) :
    CdcState × Bool × List Output :=
  let s1 : CdcState := { s with
    command_index := 0,
    commandBuffer := upd s.commandBuffer 0 0,
    cdcReadBuffer := s.cdcReadBuffer.set 0 0 }
  if s1.isConfigured then
    ({ s1 with isReadComplete := false }, readOk, [Output.readSubmitted])
  else (s1, false, [])

/-- The USB device-layer events dispatched to `APP_USBDeviceEventHandler`. -/
inductive DeviceEvent where
  | sof
  | reset
  | configured (value : Nat)
  | powerDetected
  | powerRemoved
  | suspended
  | resumed
  | error
deriving DecidableEq

/-- `APP_USBDeviceEventHandler`: a reset or power-removed event clears
`isConfigured`; a configured event with configuration value 1 sets
`isConfigured`, runs `cdc_usb_initialize` and fires the console-ready
callback exactly when initialization returned true.  `readOk` is the
transport's result for the read submitted by initialization.  All other
events leave the modelled state untouched. -/
def APP_USBDeviceEventHandler (s : CdcState) (e : DeviceEvent) (readOk : Bool) :
    CdcState × List Output :=
  match e with
  | .reset => ({ s with isConfigured := false }, [])
  | .configured v =>
    if v = 1 then
      let r := cdc_usb_initialize { s with isConfigured := true } readOk
      if r.2.1 then (r.1, r.2.2 ++ [Output.readyFired]) else (r.1, r.2.2)
    else (s, [])
  | .powerRemoved => ({ s with isConfigured := false }, [])
  | _ => (s, [])

/-- The CDC-class events dispatched to `APP_USBDeviceCDCEventHandler`
that touch the modelled state: a read completion (with its status flag,
byte count, and the bytes the transport stored in `cdcReadBuffer`) and a
write completion.  The remaining branches (line coding, control line
state, break, control transfer status) only touch fields the console
engine never reads, so they project to the identity, collected in
`other`. -/
inductive CdcEvent where
  | readComplete (isError : Bool) (len : Nat) (data : List Nat)
  | writeComplete
  | other
deriving DecidableEq

/-- `APP_USBDeviceCDCEventHandler`: a read completion whose status is not
`USB_DEVICE_CDC_RESULT_ERROR` records the completion flag, byte count and
data, then runs `cdc_usb_read_line`; an error-status completion does
nothing.  A write completion sets `isWriteComplete`. -/
def APP_USBDeviceCDCEventHandler (s : CdcState) (e : CdcEvent) (writeOk : Bool) :
    CdcState × List Output :=
  match e with
  | .readComplete isError len data =>
    if isError then (s, [])
    else
      cdc_usb_read_line
        { s with isReadComplete := true, numBytesRead := len, cdcReadBuffer := data }
        writeOk
  | .writeComplete => ({ s with isWriteComplete := true }, [])
  | .other => (s, [])

/-- Deliver a list of chunks as successive successful read completions,
concatenating the produced output traces. -/
def deliverChunks (s : CdcState) (chunks : List (List Nat)) (wOk : Bool) :
    CdcState × List Output :=
  match chunks with
  | [] => (s, [])
  | c :: cs =>
    let r := APP_USBDeviceCDCEventHandler s (.readComplete false c.length c) wOk
    let r2 := deliverChunks r.1 cs wOk
    (r2.1, r.2 ++ r2.2)

/-- A byte the scan treats as a regular character: neither the
terminator nor a reset sentinel. -/
def isPlain (b : Nat) : Prop :=
  b ≠ CDC_USB_LINE_TERMINATOR ∧ b ≠ CDC_USB_RESET_LINE_CHAR_1 ∧
    b ≠ CDC_USB_RESET_LINE_CHAR_2

instance (b : Nat) : Decidable (isPlain b) := by
  unfold isPlain
  infer_instance

/-- The state right after a successful configuration and arm: empty
command buffer, configured, no pending completions, write idle. -/
def initState : CdcState :=
  { commandBuffer := fun _ => 0
    command_index := 0
    isConfigured := true
    isReadComplete := false
    isWriteComplete := true
    numBytesRead := 0
    cdcReadBuffer := [] }

/-- The store/increment pair of the regular-character branch, iterated
over a list of bytes: stores each byte at the current `uint8_t` index and
wraps the index mod 256.  Mirrors what `readLoop` does to
`commandBuffer`/`command_index` on a run of plain bytes. -/
def cmdWrite : (Nat → Nat) → Nat → List Nat → (Nat → Nat) × Nat
  | cb, ci, [] => (cb, ci)
  | cb, ci, b :: xs => cmdWrite (upd cb ci b) ((ci + 1) % 256) xs

theorem upd_same (f : Nat → Nat) (i v : Nat) : upd f i v i = v := by
  simp [upd]

theorem upd_of_ne (f : Nat → Nat) {i j : Nat} (v : Nat) (h : j ≠ i) :
    upd f i v j = f j := by
  simp [upd, h]

theorem writeList_lookup_lt (xs : List Nat) :
    ∀ buf start j, j < start → writeList buf start xs j = buf j := by
  induction xs with
  | nil => intro buf start j _; rfl
  | cons b xs ih =>
    intro buf start j h
    rw [writeList, ih _ _ _ (Nat.lt_succ_of_lt h),
      upd_of_ne _ _ (Nat.ne_of_lt h)]

theorem writeList_lookup_ge (xs : List Nat) :
    ∀ buf start j, start + xs.length ≤ j → writeList buf start xs j = buf j := by
  induction xs with
  | nil => intro buf start j _; rfl
  | cons b xs ih =>
    intro buf start j h
    have hj : start + 1 + xs.length ≤ j := by
      simpa [Nat.add_comm, Nat.add_assoc, Nat.add_left_comm] using h
    have hne : j ≠ start := by omega
    rw [writeList, ih _ _ _ hj, upd_of_ne _ _ hne]

theorem writeList_lookup_in (xs : List Nat) :
    ∀ buf start k, k < xs.length →
      writeList buf start xs (start + k) = xs.getD k 0 := by
  induction xs with
  | nil => intro buf start k h; exact absurd h (by simp)
  | cons b xs ih =>
    intro buf start k h
    cases k with
    | zero =>
      rw [writeList, writeList_lookup_lt _ _ _ _ (by omega)]
      simpa using upd_same buf start b
    | succ k =>
      have hk : k < xs.length := by simpa using h
      have : start + (k + 1) = (start + 1) + k := by omega
      rw [writeList, this, ih _ _ _ hk]
      simp

theorem cmdWrite_plain_eq (p : List Nat) :
    ∀ cb ci, ci + p.length < 256 → cmdWrite cb ci p = (writeList cb ci p, ci + p.length) := by
  induction p with
  | nil => intro cb ci _; simp [cmdWrite, writeList]
  | cons b xs ih =>
    intro cb ci h
    have hlt : ci + 1 < 256 := by simp [List.length] at h; omega
    have hmod : (ci + 1) % 256 = ci + 1 := Nat.mod_eq_of_lt hlt
    rw [cmdWrite, writeList, hmod, ih _ _ (by simp [List.length] at h ⊢; omega)]
    simp [List.length]
    omega

theorem cmdWrite_index (p : List Nat) :
    ∀ cb ci, ci < 256 → (cmdWrite cb ci p).2 = (ci + p.length) % 256 := by
  induction p with
  | nil =>
    intro cb ci h
    simp [cmdWrite, Nat.mod_eq_of_lt h]
  | cons b xs ih =>
    intro cb ci _
    rw [cmdWrite, ih _ _ (Nat.mod_lt _ (by omega))]
    rw [Nat.mod_add_mod]
    congr 1
    simp [List.length]
    omega

theorem readLoop_append_plain (p : List Nat) :
    ∀ l i cb ci rb, (∀ b ∈ p, isPlain b) →
      readLoop (p ++ l) i cb ci rb =
        readLoop l (i + p.length) (cmdWrite cb ci p).1 (cmdWrite cb ci p).2
          (writeList rb i p) := by
  induction p with
  | nil => intro l i cb ci rb _; simp [cmdWrite, writeList]
  | cons b xs ih =>
    intro l i cb ci rb hp
    have hb : isPlain b := hp b (by simp)
    obtain ⟨h13, h7, h8⟩ := hb
    rw [List.cons_append, readLoop, if_neg h13, if_neg (not_or.mpr ⟨h7, h8⟩)]
    rw [ih _ _ _ _ _ (fun x hx => hp x (by simp [hx]))]
    rw [cmdWrite, writeList]
    congr 1
    simp [List.length]
    omega

theorem readLoop_plain (p : List Nat) (i : Nat) (cb : Nat → Nat) (ci : Nat)
    (rb : Nat → Nat) (hp : ∀ b ∈ p, isPlain b) :
    readLoop p i cb ci rb =
      ((cmdWrite cb ci p).1, (cmdWrite cb ci p).2, writeList rb i p, []) := by
  have := readLoop_append_plain p [] i cb ci rb hp
  simpa [readLoop] using this

theorem cStringAux_spec (xs : List Nat) :
    ∀ fuel i buf,
      (∀ k, k < xs.length → buf (i + k) = xs.getD k 0 ∧ xs.getD k 0 ≠ 0) →
      buf (i + xs.length) = 0 → xs.length < fuel →
      cStringAux fuel i buf = xs := by
  induction xs with
  | nil =>
    intro fuel i buf _ hz hf
    cases fuel with
    | zero => exact absurd hf (by omega)
    | succ fuel => simp only [cStringAux]; rw [if_pos (by simpa using hz)]
  | cons b xs ih =>
    intro fuel i buf hk hz hf
    cases fuel with
    | zero => exact absurd hf (by omega)
    | succ fuel =>
      have h0 := hk 0 (by simp)
      rw [List.getD_cons_zero, Nat.add_zero] at h0
      simp only [cStringAux]
      rw [if_neg (by rw [h0.1]; exact h0.2), h0.1]
      congr 1
      apply ih fuel (i + 1) buf
      · intro k hklt
        have h1 := hk (k + 1) (by simp [List.length]; omega)
        rw [List.getD_cons_succ] at h1
        have harith : i + (k + 1) = i + 1 + k := by omega
        rw [harith] at h1
        exact h1
      · have : i + 1 + xs.length = i + (xs.length + 1) := by omega
        rw [this]
        simpa [List.length] using hz
      · simp [List.length] at hf; omega

theorem cStringAux_len (n : Nat) :
    ∀ fuel i buf, buf (i + n) = 0 → (cStringAux fuel i buf).length ≤ n := by
  induction n with
  | zero =>
    intro fuel i buf hz
    cases fuel with
    | zero => simp [cStringAux]
    | succ fuel =>
      simp only [cStringAux]
      rw [if_pos (by simpa using hz)]
      simp
  | succ n ih =>
    intro fuel i buf hz
    cases fuel with
    | zero => simp [cStringAux]
    | succ fuel =>
      simp only [cStringAux]
      by_cases h : buf i = 0
      · rw [if_pos h]; simp
      · rw [if_neg h]
        have := ih fuel (i + 1) buf
          (by have : i + 1 + n = i + (n + 1) := by omega
              rw [this]; exact hz)
        simp only [List.length_cons]
        exact Nat.succ_le_succ this

theorem cString_of_nul_head (buf : Nat → Nat) (h : buf 0 = 0) :
    cString buf = [] := by
  simp only [cString, APP_READ_BUFFER_SIZE, cStringAux]
  rw [if_pos h]

theorem filterMap_lineOf_map (L : List (List Nat)) :
    (L.map Output.lineDelivered).filterMap lineOf = L := by
  induction L with
  | nil => rfl
  | cons x xs ih => simp [lineOf, ih]

theorem filterMap_writeOf_map (L : List (List Nat)) :
    (L.map Output.lineDelivered).filterMap writeOf = [] := by
  induction L with
  | nil => rfl
  | cons x xs ih => simp [writeOf, ih]

theorem count_readSubmitted_map (L : List (List Nat)) :
    (L.map Output.lineDelivered).count Output.readSubmitted = 0 := by
  induction L with
  | nil => rfl
  | cons x xs ih => simp [List.count_cons, ih]

theorem readyFired_notMem_map (L : List (List Nat)) :
    ¬ Output.readyFired ∈ L.map Output.lineDelivered := by
  induction L with
  | nil => simp
  | cons x xs ih => simp [ih]

theorem mem_map_lineDelivered {L : List (List Nat)} {l : List Nat}
    (h : Output.lineDelivered l ∈ L.map Output.lineDelivered) : l ∈ L := by
  rcases List.mem_map.mp h with ⟨a, ha, he⟩
  cases he
  exact ha

/-- `cdc_usb_write` never touches the command buffer, the command index,
the configured flag, or the read-side fields. -/
theorem cdc_usb_write_frame (s : CdcState) (data : List Nat) (ok : Bool) :
    (cdc_usb_write s data ok).1.commandBuffer = s.commandBuffer ∧
    (cdc_usb_write s data ok).1.command_index = s.command_index ∧
    (cdc_usb_write s data ok).1.isConfigured = s.isConfigured ∧
    (cdc_usb_write s data ok).1.isReadComplete = s.isReadComplete ∧
    (cdc_usb_write s data ok).1.numBytesRead = s.numBytesRead := by
  unfold cdc_usb_write
  by_cases h1 : data = [] <;>
    by_cases h2 : s.isConfigured = false ∨ s.isWriteComplete = false <;>
      simp [h1, h2]

/-- An unconfigured session never reaches the transport write call. -/
theorem cdc_usb_write_not_configured (s : CdcState) (data : List Nat) (ok : Bool)
    (h : s.isConfigured = false) : (cdc_usb_write s data ok).2.2 = none := by
  unfold cdc_usb_write
  by_cases h1 : data = [] <;> simp [h1, h]

/-- The whole read-completion path for a nonempty chunk, expressed
through the `readLoop` result. -/
theorem handler_read_eq (s : CdcState) (c : List Nat) (wOk : Bool) (hc : c ≠ []) :
    APP_USBDeviceCDCEventHandler s (.readComplete false c.length c) wOk =
      (let r := readLoop c 0 s.commandBuffer s.command_index (fun _ => 0)
       let s1 : CdcState :=
         { s with
           commandBuffer := r.1
           command_index := r.2.1
           isReadComplete := false
           numBytesRead := 0
           cdcReadBuffer := c }
       let w := cdc_usb_write s1 (cString r.2.2.1) wOk
       (w.1, (r.2.2.2.map Output.lineDelivered) ++ [Output.readSubmitted] ++
         (match w.2.2 with
          | some d => [Output.writeSubmitted d]
          | none => []))) := by
  simp only [APP_USBDeviceCDCEventHandler, cdc_usb_read_line]
  rw [if_neg (show ¬(false = true) by simp)]
  rw [if_neg (show ¬(c.length = 0 ∨ true = false) by simp [hc])]
  rw [List.take_length]

/-- A chunk of plain bytes that fits without index wrap: appended to the
command buffer at consecutive positions, echoed, one read re-armed. -/
theorem handler_plain_eq (s : CdcState) (c : List Nat) (wOk : Bool) (hc : c ≠ [])
    (hplain : ∀ b ∈ c, isPlain b) (hnw : s.command_index + c.length < 256) :
    APP_USBDeviceCDCEventHandler s (.readComplete false c.length c) wOk =
      (let s1 : CdcState :=
         { s with
           commandBuffer := writeList s.commandBuffer s.command_index c
           command_index := s.command_index + c.length
           isReadComplete := false
           numBytesRead := 0
           cdcReadBuffer := c }
       let w := cdc_usb_write s1 (cString (writeList (fun _ => 0) 0 c)) wOk
       (w.1, [Output.readSubmitted] ++
         (match w.2.2 with
          | some d => [Output.writeSubmitted d]
          | none => []))) := by
  simp only [handler_read_eq s c wOk hc]
  rw [readLoop_plain c 0 s.commandBuffer s.command_index (fun _ => 0) hplain]
  rw [cmdWrite_plain_eq c s.commandBuffer s.command_index hnw]
  simp

/-- A chunk made of a no-wrap plain run followed by the terminator: the
buffer is NUL-terminated at the cursor, its C-string content is delivered
as the line, the buffer is cleared, and the echo submitted is whatever
the plain run wrote into the fresh received buffer. -/
theorem handler_term_eq (s : CdcState) (p rest : List Nat) (wOk : Bool)
    (hplain : ∀ b ∈ p, isPlain b) (hnw : s.command_index + p.length < 256) :
    APP_USBDeviceCDCEventHandler s
        (.readComplete false (p ++ 13 :: rest).length (p ++ 13 :: rest)) wOk =
      (let cb1 := upd (writeList s.commandBuffer s.command_index p)
         (s.command_index + p.length) 0
       let s1 : CdcState :=
         { s with
           commandBuffer := upd cb1 0 0
           command_index := 0
           isReadComplete := false
           numBytesRead := 0
           cdcReadBuffer := p ++ 13 :: rest }
       let w := cdc_usb_write s1 (cString (writeList (fun _ => 0) 0 p)) wOk
       (w.1, [Output.lineDelivered (cString cb1), Output.readSubmitted] ++
         (match w.2.2 with
          | some d => [Output.writeSubmitted d]
          | none => []))) := by
  simp only [handler_read_eq s (p ++ 13 :: rest) wOk (by simp)]
  rw [readLoop_append_plain p (13 :: rest) 0 s.commandBuffer s.command_index
    (fun _ => 0) hplain]
  rw [cmdWrite_plain_eq p s.commandBuffer s.command_index hnw]
  simp only [readLoop]
  rw [if_pos (show (13 : Nat) = CDC_USB_LINE_TERMINATOR from rfl)]
  simp [cdc_usb_return_line]

/-- A chunk made of a plain run followed by a reset sentinel: the command
index is zeroed, the reset acknowledgement string overwrites the start of
the received buffer, and no line is delivered. -/
theorem handler_reset_eq (s : CdcState) (p : List Nat) (b : Nat) (rest : List Nat)
    (wOk : Bool) (hplain : ∀ x ∈ p, isPlain x) (hb : b = 7 ∨ b = 8) :
    APP_USBDeviceCDCEventHandler s
        (.readComplete false (p ++ b :: rest).length (p ++ b :: rest)) wOk =
      (let s1 : CdcState :=
         { s with
           commandBuffer := (cmdWrite s.commandBuffer s.command_index p).1
           command_index := 0
           isReadComplete := false
           numBytesRead := 0
           cdcReadBuffer := p ++ b :: rest }
       let w := cdc_usb_write s1
         (cString (writeList (writeList (fun _ => 0) 0 p) 0
           (CDC_USB_RESET_LINE_RESPONSE ++ [0]))) wOk
       (w.1, [Output.readSubmitted] ++
         (match w.2.2 with
          | some d => [Output.writeSubmitted d]
          | none => []))) := by
  have hb13 : ¬ b = CDC_USB_LINE_TERMINATOR := by
    rcases hb with h | h <;> simp [h, CDC_USB_LINE_TERMINATOR]
  have hbr : b = CDC_USB_RESET_LINE_CHAR_1 ∨ b = CDC_USB_RESET_LINE_CHAR_2 := hb
  simp only [handler_read_eq s (p ++ b :: rest) wOk (by simp)]
  rw [readLoop_append_plain p (b :: rest) 0 s.commandBuffer s.command_index
    (fun _ => 0) hplain]
  simp only [readLoop]
  rw [if_neg hb13, if_pos hbr]
  simp

/-- Reading the received buffer after the reset branch yields exactly the
fixed acknowledgement string, whatever was echoed into it before. -/
theorem cString_reset (rb : Nat → Nat) :
    cString (writeList rb 0 (CDC_USB_RESET_LINE_RESPONSE ++ [0])) =
      CDC_USB_RESET_LINE_RESPONSE := by
  have hconc : ∀ k, k < 14 →
      ((CDC_USB_RESET_LINE_RESPONSE ++ [0]).getD k 0 =
         CDC_USB_RESET_LINE_RESPONSE.getD k 0 ∧
       CDC_USB_RESET_LINE_RESPONSE.getD k 0 ≠ 0) := by decide
  apply cStringAux_spec
  · intro k hk
    have hk14 : k < 14 := hk
    have hw := writeList_lookup_in (CDC_USB_RESET_LINE_RESPONSE ++ [0]) rb 0 k
      (by simp [CDC_USB_RESET_LINE_RESPONSE]; omega)
    rw [Nat.zero_add] at hw
    rw [Nat.zero_add, hw]
    exact hconc k hk14
  · have hw := writeList_lookup_in (CDC_USB_RESET_LINE_RESPONSE ++ [0]) rb 0 14
      (by simp [CDC_USB_RESET_LINE_RESPONSE])
    rw [Nat.zero_add] at hw
    rw [Nat.zero_add, show CDC_USB_RESET_LINE_RESPONSE.length = 14 from rfl, hw]
    decide
  · decide

/-- A printable byte in the claims' sense: the visible ASCII range. -/
def printable (b : Nat) : Prop := 32 ≤ b ∧ b ≤ 126

instance (b : Nat) : Decidable (printable b) := by
  unfold printable
  infer_instance

theorem printable_isPlain {b : Nat} (h : printable b) : isPlain b := by
  obtain ⟨h1, h2⟩ := h
  refine ⟨?_, ?_, ?_⟩ <;>
    simp [CDC_USB_LINE_TERMINATOR, CDC_USB_RESET_LINE_CHAR_1,
      CDC_USB_RESET_LINE_CHAR_2] <;> omega

theorem getD_mem (l : List Nat) (k : Nat) (h : k < l.length) : l.getD k 0 ∈ l := by
  rw [List.getD_eq_getElem l 0 h]
  exact List.getElem_mem h

/-- Reading the command buffer as a C string right after the terminator
NUL-terminates it: previous content `P` plus the freshly appended `S`. -/
theorem cString_line (cb : Nat → Nat) (P S : List Nat)
    (hbuf : ∀ k, k < P.length → cb k = P.getD k 0)
    (hps : ∀ b ∈ P ++ S, printable b) (hlen : (P ++ S).length < 256) :
    cString (upd (writeList cb P.length S) (P.length + S.length) 0) = P ++ S := by
  apply cStringAux_spec
  · intro k hk
    have hkPS : k < P.length + S.length := by
      rw [List.length_append] at hk
      exact hk
    constructor
    · rw [Nat.zero_add, upd_of_ne _ _ (by omega)]
      by_cases hkP : k < P.length
      · rw [writeList_lookup_lt _ _ _ _ hkP, hbuf k hkP,
          List.getD_append _ _ _ _ hkP]
      · have hks : k - P.length < S.length := by omega
        have hsplit : k = P.length + (k - P.length) := by omega
        rw [hsplit, writeList_lookup_in S cb P.length _ hks, ← hsplit,
          List.getD_append_right _ _ _ _ (by omega)]
    · have hmem := getD_mem (P ++ S) k hk
      have := hps _ hmem
      obtain ⟨h1, _⟩ := this
      omega
  · rw [Nat.zero_add, List.length_append]
    exact upd_same _ _ _
  · calc (P ++ S).length < 256 := hlen
      _ < APP_READ_BUFFER_SIZE := by norm_num [APP_READ_BUFFER_SIZE]

/-- The observable pieces of processing a no-wrap plain chunk: cursor
advanced by the chunk length, buffer content below the old cursor kept,
the chunk's bytes stored at the old cursor, and no line delivered. -/
theorem handler_plain_parts (s : CdcState) (c : List Nat) (wOk : Bool) (hc : c ≠ [])
    (hplain : ∀ b ∈ c, isPlain b) (hnw : s.command_index + c.length < 256) :
    ((APP_USBDeviceCDCEventHandler s (.readComplete false c.length c) wOk).1.command_index
        = s.command_index + c.length) ∧
    (∀ k, k < s.command_index →
      (APP_USBDeviceCDCEventHandler s (.readComplete false c.length c) wOk).1.commandBuffer k
        = s.commandBuffer k) ∧
    (∀ k, k < c.length →
      (APP_USBDeviceCDCEventHandler s (.readComplete false c.length c) wOk).1.commandBuffer
          (s.command_index + k) = c.getD k 0) ∧
    ((APP_USBDeviceCDCEventHandler s (.readComplete false c.length c) wOk).2.filterMap lineOf
        = []) := by
  rw [handler_plain_eq s c wOk hc hplain hnw]
  simp only []
  set s1 : CdcState :=
    { s with
      commandBuffer := writeList s.commandBuffer s.command_index c
      command_index := s.command_index + c.length
      isReadComplete := false
      numBytesRead := 0
      cdcReadBuffer := c } with hs1
  have hfr := cdc_usb_write_frame s1 (cString (writeList (fun _ => 0) 0 c)) wOk
  refine ⟨?_, ?_, ?_, ?_⟩
  · rw [hfr.2.1, hs1]
  · intro k hk
    rw [hfr.1, hs1]
    exact writeList_lookup_lt _ _ _ _ hk
  · intro k hk
    rw [hfr.1, hs1]
    exact writeList_lookup_in _ _ _ _ hk
  · cases hw : (cdc_usb_write s1 (cString (writeList (fun _ => 0) 0 c)) wOk).2.2 <;>
      simp [lineOf, hw]

/-- The observable pieces of processing a no-wrap plain run followed by
the terminator: the C-string content of the NUL-terminated buffer is
delivered as the single line, and the buffer ends empty. -/
theorem handler_term_parts (s : CdcState) (p rest : List Nat) (wOk : Bool)
    (hplain : ∀ b ∈ p, isPlain b) (hnw : s.command_index + p.length < 256) :
    ((APP_USBDeviceCDCEventHandler s
        (.readComplete false (p ++ 13 :: rest).length (p ++ 13 :: rest)) wOk).1.command_index
        = 0) ∧
    ((APP_USBDeviceCDCEventHandler s
        (.readComplete false (p ++ 13 :: rest).length (p ++ 13 :: rest)) wOk).1.commandBuffer 0
        = 0) ∧
    ((APP_USBDeviceCDCEventHandler s
        (.readComplete false (p ++ 13 :: rest).length (p ++ 13 :: rest)) wOk).2.filterMap lineOf
        = [cString (upd (writeList s.commandBuffer s.command_index p)
            (s.command_index + p.length) 0)]) := by
  rw [handler_term_eq s p rest wOk hplain hnw]
  simp only []
  set cb1 := upd (writeList s.commandBuffer s.command_index p)
    (s.command_index + p.length) 0 with hcb1
  set s1 : CdcState :=
    { s with
      commandBuffer := upd cb1 0 0
      command_index := 0
      isReadComplete := false
      numBytesRead := 0
      cdcReadBuffer := p ++ 13 :: rest } with hs1
  have hfr := cdc_usb_write_frame s1 (cString (writeList (fun _ => 0) 0 p)) wOk
  refine ⟨?_, ?_, ?_⟩
  · rw [hfr.2.1, hs1]
  · rw [hfr.1, hs1]
    show upd cb1 0 0 0 = 0
    exact upd_same _ _ _
  · cases hw : (cdc_usb_write s1 (cString (writeList (fun _ => 0) 0 p)) wOk).2.2 <;>
      simp [lineOf, hw]

/-- Multi-chunk induction for terminator completeness: starting from a
buffer holding `P`, delivering chunks whose concatenation is `S` followed
by the terminator fires the line callback exactly once, with `P ++ S`,
and leaves the buffer empty. -/
theorem deliverChunks_terminator (chunks : List (List Nat)) :
    ∀ (P S : List Nat) (s : CdcState) (wOk : Bool),
      (∀ b ∈ P ++ S, printable b) → (P ++ S).length < 256 →
      chunks.flatten = S ++ [13] → (∀ c ∈ chunks, c ≠ []) →
      s.command_index = P.length →
      (∀ k, k < P.length → s.commandBuffer k = P.getD k 0) →
      ((deliverChunks s chunks wOk).2.filterMap lineOf = [P ++ S] ∧
       (deliverChunks s chunks wOk).1.command_index = 0 ∧
       (deliverChunks s chunks wOk).1.commandBuffer 0 = 0) := by
  induction chunks with
  | nil =>
    intro P S s wOk _ _ hflat _ _ _
    exact absurd (congrArg List.length hflat) (by simp)
  | cons c cs ih =>
    intro P S s wOk hps hlen hflat hne hidx hbuf
    rw [List.flatten_cons] at hflat
    by_cases hcs : cs.flatten = []
    · -- last chunk: it carries the whole remaining line plus terminator
      have hcsnil : cs = [] := by
        cases cs with
        | nil => rfl
        | cons d ds =>
          exfalso
          rw [List.flatten_cons] at hcs
          have h2 : d = [] := (List.append_eq_nil.mp hcs).1
          exact hne d (by simp) h2
      subst hcsnil
      rw [show ([] : List (List Nat)).flatten = [] from rfl, List.append_nil] at hflat
      subst hflat
      have hplainS : ∀ b ∈ S, isPlain b := fun b hb =>
        printable_isPlain (hps b (by simp [hb]))
      have hnw : s.command_index + S.length < 256 := by
        rw [hidx]
        rw [List.length_append] at hlen
        omega
      have hparts := handler_term_parts s S [] wOk hplainS hnw
      have hline : cString (upd (writeList s.commandBuffer s.command_index S)
          (s.command_index + S.length) 0) = P ++ S := by
        rw [hidx]
        exact cString_line s.commandBuffer P S hbuf hps hlen
      simp only [deliverChunks, List.filterMap_append, List.append_nil]
      exact ⟨by rw [hparts.2.2, hline],
        by simpa [deliverChunks] using hparts.1,
        by simpa [deliverChunks] using hparts.2.1⟩
    · -- first chunk: a plain proper prefix of the line
      have hclen : c.length ≤ S.length := by
        have hl := congrArg List.length hflat
        rw [List.length_append, List.length_append] at hl
        have hpos : 0 < cs.flatten.length := List.length_pos.mpr hcs
        simp only [List.length_cons, List.length_nil] at hl
        omega
      have hctake : c = S.take c.length := by
        have h2 : (S ++ [13]).take c.length = S.take c.length :=
          List.take_append_of_le_length hclen
        rw [← hflat, List.take_append_of_le_length (le_refl _),
          List.take_length] at h2
        exact h2
      have hS : S = c ++ S.drop c.length := by
        conv_lhs => rw [← List.take_append_drop c.length S]
        rw [← hctake]
      have hflat2 : cs.flatten = S.drop c.length ++ [13] := by
        have hcat : c ++ cs.flatten = c ++ (S.drop c.length ++ [13]) := by
          rw [hflat]
          conv_lhs => rw [hS]
          rw [List.append_assoc]
        exact List.append_cancel_left hcat
      have hplainc : ∀ b ∈ c, isPlain b := by
        intro b hb
        apply printable_isPlain
        apply hps
        rw [hS]
        simp [hb]
      have hcne : c ≠ [] := hne c (by simp)
      have hnw : s.command_index + c.length < 256 := by
        rw [hidx]
        rw [hS, List.length_append, List.length_append] at hlen
        omega
      have hparts := handler_plain_parts s c wOk hcne hplainc hnw
      set r := APP_USBDeviceCDCEventHandler s (.readComplete false c.length c) wOk
        with hr
      have hih := ih (P ++ c) (S.drop c.length) r.1 wOk
        (by intro b hb
            apply hps
            rw [hS, ← List.append_assoc]
            exact hb)
        (by rw [hS, ← List.append_assoc] at hlen
            exact hlen)
        hflat2
        (fun d hd => hne d (by simp [hd]))
        (by rw [hparts.1, hidx, List.length_append])
        (by intro k hk
            rw [List.length_append] at hk
            by_cases hkP : k < P.length
            · rw [hparts.2.1 k (by rw [hidx]; exact hkP), hbuf k hkP,
                List.getD_append _ _ _ _ hkP]
            · have hks : k - P.length < c.length := by omega
              have hsplit : k = P.length + (k - P.length) := by omega
              have e1 := hparts.2.2.1 (k - P.length) hks
              rw [hidx, ← hsplit] at e1
              rw [e1, List.getD_append_right _ _ _ _ (by omega)])
      have hrw : P ++ c ++ S.drop c.length = P ++ S := by
        rw [List.append_assoc, ← hS]
      rw [hrw] at hih
      simp only [deliverChunks, List.filterMap_append, ← hr]
      exact ⟨by rw [hparts.2.2.2, hih.1]; simp, hih.2.1, hih.2.2⟩

/-- The success path of `cdc_usb_write`: valid data on a configured, idle
session clears the complete flag and hands the data to the transport. -/
theorem cdc_usb_write_ok (s : CdcState) (data : List Nat) (ok : Bool)
    (h1 : s.isConfigured = true) (h2 : s.isWriteComplete = true) (h3 : data ≠ []) :
    cdc_usb_write s data ok = ({ s with isWriteComplete := false }, ok, some data) := by
  unfold cdc_usb_write
  rw [if_neg h3, if_neg (by simp [h1, h2])]

/-- The received buffer after a pure plain scan reads back as exactly the
bytes echoed into it. -/
theorem cString_echo (p : List Nat) (hnz : ∀ b ∈ p, b ≠ 0)
    (hlen : p.length < 512) :
    cString (writeList (fun _ => 0) 0 p) = p := by
  apply cStringAux_spec
  · intro k hk
    have hw := writeList_lookup_in p (fun _ => 0) 0 k hk
    rw [Nat.zero_add] at hw
    rw [Nat.zero_add, hw]
    exact ⟨rfl, hnz _ (getD_mem p k hk)⟩
  · rw [Nat.zero_add]
    exact writeList_lookup_ge p (fun _ => 0) 0 p.length (by omega)
  · exact hlen

theorem count_readyFired_map (L : List (List Nat)) :
    (L.map Output.lineDelivered).count Output.readyFired = 0 := by
  induction L with
  | nil => rfl
  | cons x xs ih => simp [List.count_cons, ih]

/-- A delivered line can only come from the scan loop's line list. -/
theorem lineDelivered_mem_outs {L : List (List Nat)} {o : Option (List Nat)}
    {l : List Nat}
    (h : Output.lineDelivered l ∈
      (L.map Output.lineDelivered ++ [Output.readSubmitted] ++
        (match o with
         | some d => [Output.writeSubmitted d]
         | none => []))) : l ∈ L := by
  rcases List.mem_append.mp h with h1 | h2
  · rcases List.mem_append.mp h1 with h3 | h4
    · exact mem_map_lineDelivered h3
    · simp at h4
  · cases o <;> simp at h2

theorem readLoop_index_lt (chunk : List Nat) :
    ∀ i cb ci rb, ci < 256 → (readLoop chunk i cb ci rb).2.1 < 256 := by
  induction chunk with
  | nil => intro i cb ci rb h; exact h
  | cons b rest ih =>
    intro i cb ci rb h
    by_cases hb : b = CDC_USB_LINE_TERMINATOR
    · simp [readLoop, hb, cdc_usb_return_line]
    · by_cases hr : b = CDC_USB_RESET_LINE_CHAR_1 ∨ b = CDC_USB_RESET_LINE_CHAR_2
      · simp [readLoop, hb, hr]
      · rw [readLoop, if_neg hb, if_neg hr]
        exact ih _ _ _ _ (Nat.mod_lt _ (by omega))

theorem readLoop_frame_hi (chunk : List Nat) :
    ∀ i cb ci rb j, ci < 256 → 256 ≤ j →
      (readLoop chunk i cb ci rb).1 j = cb j := by
  induction chunk with
  | nil => intro i cb ci rb j _ _; rfl
  | cons b rest ih =>
    intro i cb ci rb j hci hj
    by_cases hb : b = CDC_USB_LINE_TERMINATOR
    · simp only [readLoop, if_pos hb, cdc_usb_return_line]
      rw [upd_of_ne _ _ (by omega), upd_of_ne _ _ (by omega)]
    · by_cases hr : b = CDC_USB_RESET_LINE_CHAR_1 ∨ b = CDC_USB_RESET_LINE_CHAR_2
      · rw [readLoop, if_neg hb, if_pos hr]
      · rw [readLoop, if_neg hb, if_neg hr]
        rw [ih _ _ _ _ _ (Nat.mod_lt _ (by omega)) hj]
        exact upd_of_ne _ _ (by omega)

theorem readLoop_lines_len (chunk : List Nat) :
    ∀ i cb ci rb l, ci < 256 → l ∈ (readLoop chunk i cb ci rb).2.2.2 →
      l.length ≤ 255 := by
  induction chunk with
  | nil => intro i cb ci rb l _ h; simp [readLoop] at h
  | cons b rest ih =>
    intro i cb ci rb l hci hl
    by_cases hb : b = CDC_USB_LINE_TERMINATOR
    · simp only [readLoop, if_pos hb, cdc_usb_return_line] at hl
      rcases List.mem_singleton.mp hl with rfl
      have := cStringAux_len ci APP_READ_BUFFER_SIZE 0 (upd cb ci 0)
        (by rw [Nat.zero_add]; exact upd_same _ _ _)
      calc (cString (upd cb ci 0)).length ≤ ci := this
        _ ≤ 255 := by omega
    · by_cases hr : b = CDC_USB_RESET_LINE_CHAR_1 ∨ b = CDC_USB_RESET_LINE_CHAR_2
      · rw [readLoop, if_neg hb, if_pos hr] at hl
        simp at hl
      · rw [readLoop, if_neg hb, if_neg hr] at hl
        exact ih _ _ _ _ _ (Nat.mod_lt _ (by omega)) hl

/-- The read-line pass keeps the `uint8_t` cursor below 256, never writes
the command buffer at or above index 256, and only delivers lines of at
most 255 bytes. -/
theorem read_line_inv (s : CdcState) (wOk : Bool) (h : s.command_index < 256) :
    ((cdc_usb_read_line s wOk).1.command_index < 256) ∧
    (∀ j, 256 ≤ j → (cdc_usb_read_line s wOk).1.commandBuffer j = s.commandBuffer j) ∧
    (∀ l, Output.lineDelivered l ∈ (cdc_usb_read_line s wOk).2 → l.length ≤ 255) := by
  unfold cdc_usb_read_line
  by_cases hg : s.numBytesRead = 0 ∨ s.isReadComplete = false
  · rw [if_pos hg]
    exact ⟨h, fun j _ => rfl, by intro l hl; simp at hl⟩
  · rw [if_neg hg]
    simp only []
    set chunk := s.cdcReadBuffer.take s.numBytesRead with hchunk
    set r := readLoop chunk 0 s.commandBuffer s.command_index (fun _ => 0) with hr
    set s1 : CdcState :=
      { s with
        commandBuffer := r.1
        command_index := r.2.1
        isReadComplete := false
        numBytesRead := 0 } with hs1
    have hfr := cdc_usb_write_frame s1 (cString r.2.2.1) wOk
    refine ⟨?_, ?_, ?_⟩
    · rw [hfr.2.1, hs1]
      exact readLoop_index_lt chunk 0 s.commandBuffer s.command_index _ h
    · intro j hj
      rw [hfr.1, hs1]
      exact readLoop_frame_hi chunk 0 s.commandBuffer s.command_index _ j h hj
    · intro l hl
      have hmem : l ∈ r.2.2.2 := lineDelivered_mem_outs hl
      exact readLoop_lines_len chunk 0 s.commandBuffer s.command_index _ l h hmem

/-- `read_line_inv` lifted over any single CDC event. -/
theorem cdc_event_inv (s : CdcState) (e : CdcEvent) (wOk : Bool)
    (h : s.command_index < 256) :
    ((APP_USBDeviceCDCEventHandler s e wOk).1.command_index < 256) ∧
    (∀ j, 256 ≤ j →
      (APP_USBDeviceCDCEventHandler s e wOk).1.commandBuffer j = s.commandBuffer j) ∧
    (∀ l, Output.lineDelivered l ∈ (APP_USBDeviceCDCEventHandler s e wOk).2 →
      l.length ≤ 255) := by
  cases e with
  | readComplete isError len data =>
    cases isError with
    | true => exact ⟨h, fun j _ => rfl, by intro l hl; simp [APP_USBDeviceCDCEventHandler] at hl⟩
    | false =>
      have := read_line_inv
        { s with isReadComplete := true, numBytesRead := len, cdcReadBuffer := data }
        wOk (by simpa using h)
      exact ⟨this.1, this.2.1, this.2.2⟩
  | writeComplete => exact ⟨h, fun j _ => rfl, by intro l hl; simp [APP_USBDeviceCDCEventHandler] at hl⟩
  | other => exact ⟨h, fun j _ => rfl, by intro l hl; simp [APP_USBDeviceCDCEventHandler] at hl⟩

/-- `read_line_inv` lifted over any chunk sequence. -/
theorem deliverChunks_inv (chunks : List (List Nat)) :
    ∀ (s : CdcState) (wOk : Bool), s.command_index < 256 →
      ((deliverChunks s chunks wOk).1.command_index < 256) ∧
      (∀ j, 256 ≤ j →
        (deliverChunks s chunks wOk).1.commandBuffer j = s.commandBuffer j) ∧
      (∀ l, Output.lineDelivered l ∈ (deliverChunks s chunks wOk).2 →
        l.length ≤ 255) := by
  induction chunks with
  | nil =>
    intro s wOk h
    exact ⟨h, fun j _ => rfl, by intro l hl; simp [deliverChunks] at hl⟩
  | cons c cs ih =>
    intro s wOk h
    have h1 := cdc_event_inv s (.readComplete false c.length c) wOk h
    have h2 := ih (APP_USBDeviceCDCEventHandler s (.readComplete false c.length c) wOk).1
      wOk h1.1
    refine ⟨h2.1, ?_, ?_⟩
    · intro j hj
      show (deliverChunks _ cs wOk).1.commandBuffer j = s.commandBuffer j
      rw [h2.2.1 j hj, h1.2.1 j hj]
    · intro l hl
      simp only [deliverChunks] at hl
      rcases List.mem_append.mp hl with hm | hm
      · exact h1.2.2 l hm
      · exact h2.2.2 l hm

/-- The read-line pass never fires the console-ready callback. -/
theorem count_readyFired_read_line (s : CdcState) (wOk : Bool) :
    (cdc_usb_read_line s wOk).2.count Output.readyFired = 0 := by
  unfold cdc_usb_read_line
  by_cases hg : s.numBytesRead = 0 ∨ s.isReadComplete = false
  · rw [if_pos hg]
    rfl
  · rw [if_neg hg]
    simp only []
    rw [List.count_append, List.count_append, count_readyFired_map]
    cases hw : (cdc_usb_write _ (cString _) wOk).2.2 <;> simp [hw, List.count_cons]

/-- While the session is unconfigured, the read-line pass reaches no
transport write: its echo is dropped by the gate. -/
theorem read_line_write_suppressed (s : CdcState) (wOk : Bool)
    (h : s.isConfigured = false) :
    (cdc_usb_read_line s wOk).2.filterMap writeOf = [] := by
  unfold cdc_usb_read_line
  by_cases hg : s.numBytesRead = 0 ∨ s.isReadComplete = false
  · rw [if_pos hg]
    rfl
  · rw [if_neg hg]
    simp only []
    rw [List.filterMap_append, List.filterMap_append, filterMap_writeOf_map]
    have hnone := cdc_usb_write_not_configured
      { s with
        commandBuffer := (readLoop (s.cdcReadBuffer.take s.numBytesRead) 0
          s.commandBuffer s.command_index (fun _ => 0)).1
        command_index := (readLoop (s.cdcReadBuffer.take s.numBytesRead) 0
          s.commandBuffer s.command_index (fun _ => 0)).2.1
        isReadComplete := false
        numBytesRead := 0 }
      (cString (readLoop (s.cdcReadBuffer.take s.numBytesRead) 0
        s.commandBuffer s.command_index (fun _ => 0)).2.2.1) wOk (by simpa using h)
    simp [hnone, writeOf]

/-- C2 counterexample: after a device-reset event has cleared
`isConfigured`, a stale read completion carrying success status and one
byte is still processed: the command index moves to 1 and the byte lands
in the command buffer, so the completion is not a no-op. -/
theorem C2_counterexample :
    ((APP_USBDeviceEventHandler initState .reset true).1.isConfigured = false) ∧
    ((APP_USBDeviceCDCEventHandler (APP_USBDeviceEventHandler initState .reset true).1
        (.readComplete false 1 [97]) true).1.command_index = 1) ∧
    ((APP_USBDeviceCDCEventHandler (APP_USBDeviceEventHandler initState .reset true).1
        (.readComplete false 1 [97]) true).1.commandBuffer 0 = 97) :=
  ⟨rfl, by decide, by decide⟩

/-- C2 (amended): after a configuration-loss event, a stale read
completion is a no-op exactly when it reports an error status (the whole
state is kept and nothing is emitted); a success-status stale completion
is processed normally because the read path never re-checks
`isConfigured` — only its echo write is suppressed by the gate. -/
theorem C2_stale_completion (s : CdcState) (len : Nat) (data : List Nat)
    (wOk rOk : Bool) :
    (APP_USBDeviceCDCEventHandler (APP_USBDeviceEventHandler s .reset rOk).1
        (.readComplete true len data) wOk
      = ((APP_USBDeviceEventHandler s .reset rOk).1, [])) ∧
    ((APP_USBDeviceCDCEventHandler (APP_USBDeviceEventHandler s .reset rOk).1
        (.readComplete false len data) wOk).2.filterMap writeOf = []) := by
  constructor
  · rfl
  · exact read_line_write_suppressed _ wOk rfl

/-- C3: whenever a reset sentinel is the first control byte of a chunk,
whatever the prior buffer state, the command index ends at 0, no line is
delivered, and the bytes handed to the transport are exactly the fixed
acknowledgement string. -/
theorem C3_reset_idempotent (s : CdcState) (p : List Nat) (b : Nat) (rest : List Nat)
    (wOk : Bool) (hplain : ∀ x ∈ p, isPlain x)
    (hb : b = CDC_USB_RESET_LINE_CHAR_1 ∨ b = CDC_USB_RESET_LINE_CHAR_2)
    (hcfg : s.isConfigured = true) (hidle : s.isWriteComplete = true) :
    ((APP_USBDeviceCDCEventHandler s
        (.readComplete false (p ++ b :: rest).length (p ++ b :: rest)) wOk).1.command_index
      = 0) ∧
    ((APP_USBDeviceCDCEventHandler s
        (.readComplete false (p ++ b :: rest).length (p ++ b :: rest)) wOk).2.filterMap
      lineOf = []) ∧
    ((APP_USBDeviceCDCEventHandler s
        (.readComplete false (p ++ b :: rest).length (p ++ b :: rest)) wOk).2.filterMap
      writeOf = [CDC_USB_RESET_LINE_RESPONSE]) := by
  rw [handler_reset_eq s p b rest wOk hplain hb]
  simp only []
  set s1 : CdcState :=
    { s with
      commandBuffer := (cmdWrite s.commandBuffer s.command_index p).1
      command_index := 0
      isReadComplete := false
      numBytesRead := 0
      cdcReadBuffer := p ++ b :: rest } with hs1
  rw [cString_reset (writeList (fun _ => 0) 0 p)]
  rw [cdc_usb_write_ok s1 CDC_USB_RESET_LINE_RESPONSE wOk
    (by simp [hs1, hcfg]) (by simp [hs1, hidle]) (by decide)]
  refine ⟨by rw [hs1], by simp [lineOf], by simp [writeOf, lineOf]⟩

/-- C3 witness: a plain byte, then sentinel 7, then a trailing byte, on a
fresh configured session. -/
theorem C3_witness :
    (∀ x ∈ [97], isPlain x) ∧
    ((7 : Nat) = CDC_USB_RESET_LINE_CHAR_1 ∨ (7 : Nat) = CDC_USB_RESET_LINE_CHAR_2) ∧
    initState.isConfigured = true ∧ initState.isWriteComplete = true ∧
    (((APP_USBDeviceCDCEventHandler initState
        (.readComplete false ([97] ++ 7 :: [98]).length ([97] ++ 7 :: [98])) true).1.command_index
      = 0) ∧
    ((APP_USBDeviceCDCEventHandler initState
        (.readComplete false ([97] ++ 7 :: [98]).length ([97] ++ 7 :: [98])) true).2.filterMap
      lineOf = []) ∧
    ((APP_USBDeviceCDCEventHandler initState
        (.readComplete false ([97] ++ 7 :: [98]).length ([97] ++ 7 :: [98])) true).2.filterMap
      writeOf = [CDC_USB_RESET_LINE_RESPONSE])) :=
  ⟨by decide, by decide, rfl, rfl,
    C3_reset_idempotent initState [97] 7 [98] true (by decide) (by decide) rfl rfl⟩

/-- C4: `cdc_usb_write` rejects — without touching state or the
transport — an outstanding write, an unconfigured session, and
NULL/empty data; once the write-complete event clears the flag, a write
of valid data on a configured session succeeds and submits the data. -/
theorem C4_write_gating (s : CdcState) (data : List Nat) (ok : Bool) :
    ((data = [] ∨ s.isConfigured = false ∨ s.isWriteComplete = false) →
      cdc_usb_write s data ok = (s, false, none)) ∧
    (data ≠ [] → s.isConfigured = true →
      cdc_usb_write (APP_USBDeviceCDCEventHandler s .writeComplete ok).1 data true
        = ({ s with isWriteComplete := false }, true, some data)) := by
  constructor
  · intro h
    unfold cdc_usb_write
    rcases h with h | h | h
    · rw [if_pos h]
    · by_cases h1 : data = []
      · rw [if_pos h1]
      · rw [if_neg h1, if_pos (Or.inl h)]
    · by_cases h1 : data = []
      · rw [if_pos h1]
      · rw [if_neg h1, if_pos (Or.inr h)]
  · intro h1 h2
    have he : (APP_USBDeviceCDCEventHandler s .writeComplete ok).1
        = { s with isWriteComplete := true } := rfl
    rw [he, cdc_usb_write_ok _ data true (by simpa using h2) (by simp) h1]

/-- C4 witness: a session with an outstanding write rejects a write;
after the write-complete event the same write succeeds. -/
theorem C4_witness :
    (cdc_usb_write { initState with isWriteComplete := false } [104] true
      = ({ initState with isWriteComplete := false }, false, none)) ∧
    (cdc_usb_write
        (APP_USBDeviceCDCEventHandler { initState with isWriteComplete := false }
          .writeComplete true).1 [104] true
      = ({ initState with isWriteComplete := false }, true, some [104])) :=
  ⟨(C4_write_gating { initState with isWriteComplete := false } [104] true).1
      (Or.inr (Or.inr rfl)),
   (C4_write_gating { initState with isWriteComplete := false } [104] true).2
      (by decide) rfl⟩

/-- C5 counterexample: a zero-length read completion returns from the
processing call without submitting any new read — the engine emits no
output at all, so the re-arm count is 0, not 1. -/
theorem C5_counterexample :
    ((APP_USBDeviceCDCEventHandler initState (.readComplete false 0 []) true).2 = []) ∧
    ((APP_USBDeviceCDCEventHandler initState (.readComplete false 0 []) true).2.count
      Output.readSubmitted = 0) :=
  ⟨rfl, rfl⟩

/-- C5 (amended): every success read completion carrying at least one
byte submits exactly one new read before the processing call returns; a
zero-length completion submits none. -/
theorem C5_rearm (s : CdcState) (len : Nat) (data : List Nat) (wOk : Bool)
    (hlen : len ≠ 0) :
    (APP_USBDeviceCDCEventHandler s (.readComplete false len data) wOk).2.count
      Output.readSubmitted = 1 := by
  simp only [APP_USBDeviceCDCEventHandler]
  rw [if_neg (show ¬(false = true) by simp)]
  unfold cdc_usb_read_line
  rw [if_neg (show ¬(len = 0 ∨ true = false) by simp [hlen])]
  simp only []
  rw [List.count_append, List.count_append, count_readSubmitted_map]
  cases hw : (cdc_usb_write _ (cString _) wOk).2.2 <;> simp [hw, List.count_cons]

/-- C5 witness: a one-byte chunk re-arms exactly once. -/
theorem C5_witness :
    ((1 : Nat) ≠ 0) ∧
    ((APP_USBDeviceCDCEventHandler initState (.readComplete false 1 [97]) true).2.count
      Output.readSubmitted = 1) :=
  ⟨by decide, C5_rearm initState 1 [97] true (by decide)⟩

/-- C7 counterexample: for the chunk `"ab\r"` the line handed out is
`"ab"`, but immediately after delivery the command buffer — which is
what the handler's pointer refers to — reads back as the empty C string:
the clearing does alter what a retained pointer sees. -/
theorem C7_counterexample :
    ((APP_USBDeviceCDCEventHandler initState (.readComplete false 3 [97, 98, 13]) true).2.filterMap
      lineOf = [[97, 98]]) ∧
    (cString (APP_USBDeviceCDCEventHandler initState
        (.readComplete false 3 [97, 98, 13]) true).1.commandBuffer = []) ∧
    (([[97, 98]] : List (List Nat)) ≠ [[]]) :=
  ⟨by decide, by decide, by decide⟩

/-- C7 (amended): `cdc_usb_return_line` hands the callback the command
buffer itself, whose C-string content at call time is the completed
line; the clear performed right after delivery resets that same buffer,
so reading through a retained pointer afterwards yields the empty
string.  Handlers must copy the line during the callback. -/
theorem C7_buffer_handout (cb : Nat → Nat) :
    ((cdc_usb_return_line cb).2.2 = cString cb) ∧
    (cString (cdc_usb_return_line cb).1 = []) :=
  ⟨rfl, cString_of_nul_head _ (upd_same cb 0 0)⟩

/-- C9: evaluating the code at the failing input: on a configured idle
session, a write whose transport submission reports an error returns
false but leaves `isWriteComplete = false` (the outstanding flag set),
and the data was handed to the transport; since the failed submission
generates no completion event, a subsequent valid write is rejected —
the channel is permanently blocked, contradicting the claim. -/
theorem C9_submit_error_blocks :
    ((cdc_usb_write initState [104, 105] false).2.1 = false) ∧
    ((cdc_usb_write initState [104, 105] false).2.2 = some [104, 105]) ∧
    ((cdc_usb_write initState [104, 105] false).1.isWriteComplete = false) ∧
    ((cdc_usb_write (cdc_usb_write initState [104, 105] false).1 [111, 107] true).2.1
      = false) :=
  ⟨by decide, by decide, by decide, by decide⟩

/-- C1 counterexample: 256 printable bytes (fewer than the 512-byte
capacity) followed by the terminator: `on_line` fires once but with the
empty string, not with the 256-byte sequence — the `uint8_t` command
index wrapped to 0, so the NUL landed at position 0. -/
theorem C1_counterexample :
    (∀ b ∈ List.replicate 256 97, printable b) ∧
    ((List.replicate 256 97 : List Nat).length < 512) ∧
    ((deliverChunks initState [List.replicate 256 97 ++ [13]] false).2.filterMap lineOf
      = [[]]) ∧
    (([[]] : List (List Nat)) ≠ [List.replicate 256 97]) :=
  ⟨by decide, by decide, by decide, by decide⟩

/-- C1 (amended): for every sequence `S` of printable bytes of length
below 256 (not 512: the `uint8_t` cursor caps usable length), delivered
in one or more nonempty chunks and followed by the terminator, the line
callback fires exactly once with exactly `S`, and the command buffer is
empty (index 0, NUL at position 0) immediately after. -/
theorem C1_terminator_completeness (S : List Nat) (chunks : List (List Nat))
    (s : CdcState) (wOk : Bool)
    (hS : ∀ b ∈ S, printable b) (hlen : S.length < 256)
    (hflat : chunks.flatten = S ++ [CDC_USB_LINE_TERMINATOR])
    (hne : ∀ c ∈ chunks, c ≠ []) (hidx : s.command_index = 0) :
    ((deliverChunks s chunks wOk).2.filterMap lineOf = [S]) ∧
    ((deliverChunks s chunks wOk).1.command_index = 0) ∧
    ((deliverChunks s chunks wOk).1.commandBuffer 0 = 0) := by
  have h := deliverChunks_terminator chunks [] S s wOk (by simpa using hS)
    (by simpa using hlen) hflat hne (by simpa using hidx)
    (by intro k hk; simp at hk)
  simpa using h

/-- C1 witness: `"hi"` split over two chunks with the terminator at the
end of the second. -/
theorem C1_witness :
    (∀ b ∈ [104, 105], printable b) ∧
    (([104, 105] : List Nat).length < 256) ∧
    (([[104], [105, 13]] : List (List Nat)).flatten
      = [104, 105] ++ [CDC_USB_LINE_TERMINATOR]) ∧
    (∀ c ∈ ([[104], [105, 13]] : List (List Nat)), c ≠ []) ∧
    (initState.command_index = 0) ∧
    (((deliverChunks initState [[104], [105, 13]] true).2.filterMap lineOf
        = [[104, 105]]) ∧
     ((deliverChunks initState [[104], [105, 13]] true).1.command_index = 0) ∧
     ((deliverChunks initState [[104], [105, 13]] true).1.commandBuffer 0 = 0)) :=
  ⟨by decide, by decide, by decide, by decide, rfl,
    C1_terminator_completeness [104, 105] [[104], [105, 13]] initState true
      (by decide) (by decide) (by decide) (by decide) rfl⟩

/-- C6 counterexample: for the chunk `"ab\r"` — a scan ending at the
terminator — the bytes handed to the transport are `"ab"`, the plain
characters preceding the terminator, not the empty sequence. -/
theorem C6_counterexample :
    ((APP_USBDeviceCDCEventHandler initState (.readComplete false 3 [97, 98, 13]) true).2.filterMap
      writeOf = [[97, 98]]) ∧
    (([[97, 98]] : List (List Nat)) ≠ []) :=
  ⟨by decide, by decide⟩

/-- C6 (amended): for a chunk whose scan ends at the terminator, the
outbound byte sequence is exactly the plain (nonzero) characters that
preceded the terminator within the chunk — they were echoed before the
scan broke; it is empty only when the terminator is the chunk's first
byte. -/
theorem C6_echo_before_terminator (s : CdcState) (p rest : List Nat) (wOk : Bool)
    (hplain : ∀ x ∈ p, isPlain x) (hnz : ∀ x ∈ p, x ≠ 0)
    (hcfg : s.isConfigured = true) (hidle : s.isWriteComplete = true)
    (hcap : (p ++ 13 :: rest).length ≤ APP_READ_BUFFER_SIZE) :
    (APP_USBDeviceCDCEventHandler s
        (.readComplete false (p ++ 13 :: rest).length (p ++ 13 :: rest)) wOk).2.filterMap
      writeOf = if p = [] then [] else [p] := by
  rw [handler_read_eq s (p ++ 13 :: rest) wOk (by simp)]
  simp only []
  rw [readLoop_append_plain p (13 :: rest) 0 s.commandBuffer s.command_index
    (fun _ => 0) hplain]
  simp only [readLoop]
  rw [if_pos (show (13 : Nat) = CDC_USB_LINE_TERMINATOR from rfl)]
  simp only [cdc_usb_return_line]
  rw [cString_echo p hnz
    (by rw [List.length_append, List.length_cons] at hcap
        simp only [APP_READ_BUFFER_SIZE] at hcap
        omega)]
  by_cases hp : p = []
  · subst hp
    rw [show cdc_usb_write _ ([] : List Nat) wOk = (_, false, none) from rfl]
    simp [writeOf, lineOf]
  · rw [cdc_usb_write_ok _ p wOk (by simp [hcfg]) (by simp [hidle]) hp]
    simp [writeOf, lineOf, filterMap_writeOf_map, hp]

/-- C6 witness: a single plain byte before the terminator is echoed. -/
theorem C6_witness :
    (∀ x ∈ [97], isPlain x) ∧ (∀ x ∈ [97], x ≠ 0) ∧
    (initState.isConfigured = true) ∧ (initState.isWriteComplete = true) ∧
    (([97] ++ 13 :: [] : List Nat).length ≤ APP_READ_BUFFER_SIZE) ∧
    ((APP_USBDeviceCDCEventHandler initState
        (.readComplete false ([97] ++ 13 :: []).length ([97] ++ 13 :: [])) true).2.filterMap
      writeOf = if ([97] : List Nat) = [] then [] else [[97]]) :=
  ⟨by decide, by decide, rfl, rfl, by decide,
    C6_echo_before_terminator initState [97] [] true (by decide) (by decide)
      rfl rfl (by decide)⟩

/-- C8: the console-ready callback fires exactly when a configuration
event with value 1 arrives and the read submitted by initialization
succeeds; on a failed first read the session stays configured with no
ready callback; and no CDC-class event ever fires it. -/
theorem C8_ready_iff (s : CdcState) (e : DeviceEvent) (rOk wOk : Bool) (ce : CdcEvent) :
    ((APP_USBDeviceEventHandler s e rOk).2.count Output.readyFired
      = if e = DeviceEvent.configured 1 ∧ rOk = true then 1 else 0) ∧
    ((APP_USBDeviceEventHandler s (.configured 1) false).1.isConfigured = true) ∧
    ((APP_USBDeviceCDCEventHandler s ce wOk).2.count Output.readyFired = 0) := by
  refine ⟨?_, ?_, ?_⟩
  · cases e with
    | configured v =>
      by_cases hv : v = 1
      · subst hv
        cases rOk <;>
          simp [APP_USBDeviceEventHandler, cdc_usb_initialize, List.count_cons]
      · simp [APP_USBDeviceEventHandler, hv]
    | sof => simp [APP_USBDeviceEventHandler]
    | reset => simp [APP_USBDeviceEventHandler]
    | powerDetected => simp [APP_USBDeviceEventHandler]
    | powerRemoved => simp [APP_USBDeviceEventHandler]
    | suspended => simp [APP_USBDeviceEventHandler]
    | resumed => simp [APP_USBDeviceEventHandler]
    | error => simp [APP_USBDeviceEventHandler]
  · rfl
  · cases ce with
    | readComplete isError len data =>
      cases isError with
      | true => rfl
      | false => exact count_readyFired_read_line _ wOk
    | writeComplete => rfl
    | other => rfl

/-- C10 counterexample: accumulating 256 plain bytes and then the
terminator does not produce a 256-byte line: the wrapped index puts the
NUL at position 0 and the delivered line is empty, so the effective
maximum line length is not 256. -/
theorem C10_counterexample :
    ((deliverChunks initState [List.replicate 256 98 ++ [13]] false).2.filterMap lineOf
      = [[]]) ∧
    (([] : List Nat).length ≠ 256) :=
  ⟨by decide, by decide⟩

/-- C10 (amended): the command index is an 8-bit counter — a plain run
advances it by the run length modulo 256 — every command-buffer store
through it stays below index 256 (hence within the 512-byte buffer), and
every line delivered to the callback has length at most 255 (not 256:
the NUL written at the cursor caps the C string at the cursor value,
which is at most 255). -/
theorem C10_index_wrap (p : List Nat) (i ci : Nat) (cb rb : Nat → Nat)
    (s : CdcState) (chunks : List (List Nat)) (wOk : Bool) (j : Nat) (l : List Nat)
    (hplain : ∀ b ∈ p, isPlain b) (hci : ci < 256) (hinv : s.command_index < 256)
    (hj : 256 ≤ j)
    (hl : Output.lineDelivered l ∈ (deliverChunks s chunks wOk).2) :
    ((readLoop p i cb ci rb).2.1 = (ci + p.length) % 256) ∧
    ((deliverChunks s chunks wOk).1.commandBuffer j = s.commandBuffer j) ∧
    (l.length ≤ 255) := by
  refine ⟨?_, ?_, ?_⟩
  · rw [readLoop_plain p i cb ci rb hplain]
    exact cmdWrite_index p cb ci hci
  · exact (deliverChunks_inv chunks s wOk hinv).2.1 j hj
  · exact (deliverChunks_inv chunks s wOk hinv).2.2 l hl

/-- C10 witness: one plain byte advances the cursor to 1 mod 256; a
delivered one-byte line respects the 255 bound; index 300 of the buffer
is untouched. -/
theorem C10_witness :
    (∀ b ∈ [97], isPlain b) ∧ ((0 : Nat) < 256) ∧ (initState.command_index < 256) ∧
    ((256 : Nat) ≤ 300) ∧
    (Output.lineDelivered [97] ∈ (deliverChunks initState [[97, 13]] false).2) ∧
    (((readLoop [97] 0 (fun _ => 0) 0 (fun _ => 0)).2.1 = (0 + [97].length) % 256) ∧
     ((deliverChunks initState [[97, 13]] false).1.commandBuffer 300
        = initState.commandBuffer 300) ∧
     (([97] : List Nat).length ≤ 255)) :=
  ⟨by decide, by decide, by decide, by decide, by decide,
    C10_index_wrap [97] 0 0 (fun _ => 0) (fun _ => 0) initState [[97, 13]] false
      300 [97] (by decide) (by decide) (by decide) (by decide) (by decide)⟩

end CdcUsb
